import Mathlib

/-!
Verification development for the HomeCode repository (a local coding-assistant
shell).  The Python sources are shallowly embedded: the tool implementations of
`src/tools.py`, the OpenAI-endpoint agent loop of `src/agent.py` (the variant
using incremental tool-call deltas) and the Ollama-endpoint agent loop of the
top-level `agent.py` are translated into executable Lean definitions, and the
specification's claims are settled as theorems about those definitions.

Modelling conventions:
* Python strings are Lean `String`s; `None`/absent JSON values are the `JVal.null`
  constructor; Python truthiness is the function `pyTruthy`.
* The filesystem is a finite association list from absolute path strings to a
  `FileState` (absent, regular file with content, directory, permission-denied).
  Path resolution joins relative paths to the configured working directory;
  `Path.resolve()` normalisation of `..` segments and symlinks is abstracted.
* The Python `re` module and the shell are external to the repository and are
  passed in as oracle parameters (`re : String → Option (String → Bool)`,
  `sh : String → Option ShellOut`).
* Exceptions are values of `PyErr`; a raised exception is an `Except.error`.
-/

/-! ## Python-style string helpers -/

/-- Truthiness of a JSON-like Python value (`if v:`).  Array/object payloads are
abstracted away (they are treated as non-empty, hence truthy). -/
inductive JVal where
  | str (s : String)
  | int (n : Int)
  | bool (b : Bool)
  | null
  | arr
  | obj
  deriving DecidableEq, Repr

def pyTruthy : JVal → Bool
  | .str s => s ≠ ""
  | .int n => n ≠ 0
  | .bool b => b
  | .null => false
  | .arr => true
  | .obj => true

/-- Values Python can use in integer arithmetic (`bool` is a subtype of `int`). -/
def toIntLike : JVal → Option Int
  | .int n => some n
  | .bool b => some (if b then 1 else 0)
  | _ => none

def toStrVal : JVal → Option String
  | .str s => some s
  | _ => none

/-- Number of non-overlapping occurrences of `sub` in the list, scanning from
the left: the semantics of Python `str.count` for a non-empty needle.  The
`Nat` argument is the count of characters still to be skipped after a match
(the needle's remaining length), keeping the recursion structural. -/
def countOccAux (sub : List Char) : Nat → List Char → Nat
  | _, [] => 0
  | 0, c :: rest =>
    if sub.isPrefixOf (c :: rest) then 1 + countOccAux sub (sub.length - 1) rest
    else countOccAux sub 0 rest
  | k + 1, _ :: rest => countOccAux sub k rest

/-- Python `s.count(sub)`. An empty needle is counted at every position. -/
def strCount (s sub : String) : Nat :=
  if sub.length = 0 then s.length + 1 else countOccAux sub.data 0 s.data

/-- Replacement of the first (leftmost) occurrence for a non-empty needle. -/
def replaceFirstAux (old new : List Char) : List Char → List Char
  | [] => []
  | c :: rest =>
    if old.isPrefixOf (c :: rest) then new ++ List.drop old.length (c :: rest)
    else c :: replaceFirstAux old new rest

/-- Python `s.replace(old, new, 1)`. -/
def replaceFirst (s old new : String) : String :=
  if old.length = 0 then ⟨new.data ++ s.data⟩
  else ⟨replaceFirstAux old.data new.data s.data⟩

/-- Python `content.count("\n")`. -/
def countNewlines (s : String) : Nat :=
  (s.data.filter (fun c => c = '\n')).length

/-- Split into lines keeping the terminating newline of each line: the model of
Python `splitlines(keepends=True)` for text whose line breaks are `"\n"`.
`cur` holds the characters of the current line in reverse. -/
def splitKeepEndsAux : List Char → List Char → List String
  | cur, [] => if cur.isEmpty then [] else [⟨cur.reverse⟩]
  | cur, c :: rest =>
    if c = '\n' then ⟨(c :: cur).reverse⟩ :: splitKeepEndsAux [] rest
    else splitKeepEndsAux (c :: cur) rest

def splitKeepEnds (s : String) : List String := splitKeepEndsAux [] s.data

def isPySpace (c : Char) : Bool :=
  c = ' ' ∨ c = '\t' ∨ c = '\n' ∨ c = '\r' ∨ c = '\x0b' ∨ c = '\x0c'

/-- Python `str.rstrip()`. -/
def pyRstrip (s : String) : String :=
  ⟨(s.data.reverse.dropWhile isPySpace).reverse⟩

/-- Python right-aligned formatting of an integer in a field of width 6. -/
def padLeft6 (s : String) : String :=
  ⟨List.replicate (6 - s.length) ' ' ++ s.data⟩

/-- Python slice `l[a:b]` with possibly negative bounds. -/
def pySlice {α : Type} (l : List α) (a b : Int) : List α :=
  let n : Int := l.length
  let lo : Int := if a < 0 then max 0 (n + a) else min a n
  let hi : Int := if b < 0 then max 0 (n + b) else min b n
  (l.take hi.toNat).drop lo.toNat

/-- Python `"\n".join(parts)`. -/
def joinLines (parts : List String) : String :=
  String.intercalate "\n" parts

/-- Kernel-computable `String.startsWith`. -/
def strStartsWith (s pre : String) : Bool := pre.data.isPrefixOf s.data

/-- Kernel-computable `String.endsWith`. -/
def strEndsWith (s suf : String) : Bool := suf.data.isSuffixOf s.data

/-- Line count reported by `write_file`:
`content.count("\n") + (1 if content and not content.endswith("\n") else 0)`. -/
def pyLineCount (c : String) : Nat :=
  countNewlines c + (if c ≠ "" ∧ ¬ strEndsWith c "\n" then 1 else 0)

/-- Python `s.split("/")`. -/
def splitSlashAux : List Char → List Char → List String
  | cur, [] => [⟨cur.reverse⟩]
  | cur, c :: rest =>
    if c = '/' then ⟨cur.reverse⟩ :: splitSlashAux [] rest
    else splitSlashAux (c :: cur) rest

def splitSlash (s : String) : List String := splitSlashAux [] s.data

/-- Lexicographic comparison of strings by character code, the order `sorted`
uses on path strings. -/
def strLeAux : List Char → List Char → Bool
  | [], _ => true
  | _ :: _, [] => false
  | a :: as, b :: bs =>
    if a.toNat < b.toNat then true
    else if b.toNat < a.toNat then false
    else strLeAux as bs

def strLe (a b : String) : Bool := strLeAux a.data b.data

def insertSorted (x : String) : List String → List String
  | [] => [x]
  | y :: ys => if strLe x y then x :: y :: ys else y :: insertSorted x ys

/-- Model of Python `sorted` on a list of path strings. -/
def sortStrings : List String → List String
  | [] => []
  | x :: xs => insertSorted x (sortStrings xs)

/-! ## Filesystem and configuration model -/

inductive FileState where
  | absent
  | file (content : String)
  | dir
  | denied
  deriving DecidableEq, Repr

/-- Finite filesystem: an association list from absolute paths to states.
Paths not listed are absent. -/
structure Fs where
  entries : List (String × FileState)
  deriving DecidableEq, Repr

def Fs.stat (fs : Fs) (p : String) : FileState :=
  match fs.entries.find? (fun e => e.fst = p) with
  | some e => e.snd
  | none => .absent

/-- Overwrite (or create) the regular file at `p`. -/
def Fs.setFile (fs : Fs) (p : String) (content : String) : Fs :=
  if (fs.entries.find? (fun e => e.fst = p)).isSome then
    ⟨fs.entries.map (fun e => if e.fst = p then (p, .file content) else e)⟩
  else
    ⟨fs.entries ++ [(p, .file content)]⟩

/-- Configuration fields the tools consult (`config.py`). -/
structure Conf where
  working_dir : String
  bash_timeout : Int
  deriving DecidableEq, Repr

/-- Segment-level normalisation `pathlib` applies at construction: empty and
`.` segments vanish (`..` is kept by `Path` but resolved by `resolve()`). -/
def collapseDots (segs : List String) : List String :=
  segs.filter (fun s => s ≠ "" && s ≠ ".")

/-- Full resolution of `..` segments (`Path.resolve` on an absolute path;
symlinks are not modelled). -/
def resolveSegs : List String → List String → List String
  | acc, [] => acc.reverse
  | acc, s :: rest =>
    if s = "" || s = "." then resolveSegs acc rest
    else if s = ".." then resolveSegs (acc.drop 1) rest
    else resolveSegs (s :: acc) rest

/-- Model of `_resolve_path`: absolute paths pass through `str(Path(...))`,
relative paths go through `(cwd / p).resolve()` against the working
directory. -/
def resolvePath (path : String) (cfg : Conf) : String :=
  if strStartsWith path "/" then
    "/" ++ String.intercalate "/" (collapseDots (splitSlash path))
  else
    "/" ++ String.intercalate "/" (resolveSegs [] (splitSlash (cfg.working_dir ++ "/" ++ path)))

/-! ## Exceptions -/

inductive PyErr where
  | toolError (msg : String)
  | typeError (msg : String)
  | isADirectoryError (path : String)
  | permissionError (path : String)
  deriving DecidableEq, Repr

instance : DecidableEq (Except PyErr String) := fun a b =>
  match a, b with
  | .ok x, .ok y => if h : x = y then isTrue (by rw [h]) else isFalse (by simp [h])
  | .error x, .error y => if h : x = y then isTrue (by rw [h]) else isFalse (by simp [h])
  | .ok _, .error _ => isFalse (by simp)
  | .error _, .ok _ => isFalse (by simp)

/-! ## Tool implementations (`src/tools.py`) -/

/-- Model of `read_file`.  JSON argument values arrive as `JVal`; omitted
optional arguments are `JVal.null` (Python `None`). -/
def read_file (path offset limit : JVal) (cfg : Conf) (fs : Fs) :
    Except PyErr String × Fs :=
  match toStrVal path with
  | none => (.error (.typeError "argument should be a str or an os.PathLike object"), fs)
  | some p =>
    let abs := resolvePath p cfg
    match fs.stat abs with
    | .absent => (.error (.toolError ("File not found: " ++ abs)), fs)
    | .denied => (.error (.toolError ("Permission denied: " ++ abs)), fs)
    | .dir => (.error (.toolError ("Is a directory: " ++ abs)), fs)
    | .file content =>
      let lines := splitKeepEnds content
      let startE : Except PyErr Int :=
        if pyTruthy offset then
          match toIntLike offset with
          | some n => .ok (n - 1)
          | none => .error (.typeError "unsupported operand type(s) for -")
        else .ok 0
      match startE with
      | .error e => (.error e, fs)
      | .ok start =>
        let stopE : Except PyErr Int :=
          if pyTruthy limit then
            match toIntLike limit with
            | some m => .ok (start + m)
            | none => .error (.typeError "unsupported operand type(s) for +")
          else .ok lines.length
        match stopE with
        | .error e => (.error e, fs)
        | .ok stop =>
          let selected := pySlice lines start stop
          let numbered := selected.enum.map (fun pr =>
            padLeft6 (toString (start + 1 + (pr.fst : Int))) ++ "→ " ++ pyRstrip pr.snd)
          let header := "File: " ++ abs ++ " (" ++ toString lines.length ++ " lines total)"
          let header :=
            if pyTruthy offset || pyTruthy limit then
              header ++ " [showing lines " ++ toString (start + 1) ++ "-" ++
                toString (min stop (lines.length : Int)) ++ "]"
            else header
          (.ok (header ++ "\n" ++ joinLines numbered), fs)

/-- Model of `write_file` (parent-directory creation is abstracted away; a
target that currently is a directory or is unwritable raises as `write_text`
would). -/
def write_file (path content : JVal) (cfg : Conf) (fs : Fs) :
    Except PyErr String × Fs :=
  match toStrVal path with
  | none => (.error (.typeError "argument should be a str or an os.PathLike object"), fs)
  | some p =>
    let abs := resolvePath p cfg
    match toStrVal content with
    | none => (.error (.typeError "data must be str"), fs)
    | some c =>
      match fs.stat abs with
      | .dir => (.error (.isADirectoryError abs), fs)
      | .denied => (.error (.permissionError abs), fs)
      | _ =>
        (.ok ("Written " ++ toString (pyLineCount c) ++ " lines to " ++ abs),
         fs.setFile abs c)

/-- Model of `edit_file`.  Only `FileNotFoundError` is converted to a
`ToolError` by the source; a directory or unreadable file raises. -/
def edit_file (path old_string new_string : JVal) (cfg : Conf) (fs : Fs) :
    Except PyErr String × Fs :=
  match toStrVal path with
  | none => (.error (.typeError "argument should be a str or an os.PathLike object"), fs)
  | some p =>
    let abs := resolvePath p cfg
    match fs.stat abs with
    | .absent => (.error (.toolError ("File not found: " ++ abs)), fs)
    | .dir => (.error (.isADirectoryError abs), fs)
    | .denied => (.error (.permissionError abs), fs)
    | .file original =>
      match toStrVal old_string with
      | none => (.error (.typeError "must be str, not other type"), fs)
      | some old =>
        let count := strCount original old
        if count = 0 then
          (.error (.toolError ("String not found in " ++ abs ++
            ".\nMake sure to use the exact characters including whitespace.")), fs)
        else if count > 1 then
          (.error (.toolError ("String appears " ++ toString count ++ " times in " ++ abs ++
            " — cannot replace unambiguously. Include more context (surrounding lines) in old_string.")), fs)
        else
          match toStrVal new_string with
          | none => (.error (.typeError "replace() argument 2 must be str"), fs)
          | some new =>
            let newContent := replaceFirst original old new
            (.ok ("Edited " ++ abs ++ ": replaced " ++
              toString (splitKeepEnds old).length ++ " lines with " ++
              toString (splitKeepEnds new).length ++ " lines"),
             fs.setFile abs newContent)

/-- Outcome of one shell command: captured stdout, stderr and exit status. -/
structure ShellOut where
  stdout : String
  stderr : String
  exitcode : Int
  deriving DecidableEq, Repr

/-- Model of `bash`.  The shell is an oracle: `sh cmd = none` models a
`TimeoutExpired` (the subprocess exceeded `config.bash_timeout`).  Non-string
commands are modelled as raising `TypeError` (list-valued commands are not
modelled). -/
def bash (command : JVal) (cfg : Conf) (sh : String → Option ShellOut) (fs : Fs) :
    Except PyErr String × Fs :=
  match toStrVal command with
  | none => (.error (.typeError "expected str, bytes or os.PathLike object"), fs)
  | some cmd =>
    match sh cmd with
    | none =>
      (.error (.toolError ("Command timed out after " ++ toString cfg.bash_timeout ++
        "s: " ++ cmd)), fs)
    | some r =>
      let parts :=
        (if r.stdout ≠ "" then [r.stdout] else []) ++
        (if r.stderr ≠ "" then ["[stderr]\n" ++ r.stderr] else []) ++
        (if r.exitcode ≠ 0 then ["[exit code: " ++ toString r.exitcode ++ "]"] else [])
      (.ok (if parts.isEmpty then "[no output]" else joinLines parts), fs)

/-! ### grep and glob -/

/-- Fixed set of binary/generated extensions `grep` skips. -/
def skip_exts : List String :=
  [".pyc", ".so", ".o", ".jpg", ".jpeg", ".png", ".gif",
   ".pdf", ".zip", ".tar", ".gz", ".exe", ".bin", ".whl"]

/-- Components of `p` relative to `base`, when `p` lies strictly under `base`. -/
def relParts (base p : String) : Option (List String) :=
  let pre := base ++ "/"
  if strStartsWith p pre then some (splitSlash (p.drop pre.length)) else none

/-- Whether some directory component of `p` relative to `base` starts with a
dot (`any(part.startswith(".") for part in p.relative_to(base).parts[:-1])`). -/
def isHiddenUnder (base p : String) : Bool :=
  match relParts base p with
  | some parts => parts.dropLast.any (fun part => strStartsWith part ".")
  | none => false

/-- Index of the last `'.'` of `s`, if any. -/
def lastDotIdx (s : String) : Option Nat :=
  (s.data.reverse.findIdx? (fun c => c = '.')).map (fun j => s.length - 1 - j)

/-- Model of `pathlib.Path.suffix`. -/
def pathSuffix (p : String) : String :=
  let name := (splitSlash p).reverse.headD p
  match lastDotIdx name with
  | none => ""
  | some i => if 0 < i ∧ i < name.length - 1 then ⟨name.data.drop i⟩ else ""

/-- Single-component wildcard match (`fnmatch` with `*` and `?`), with a fuel
argument keeping the recursion structural; every call shrinks pattern+input,
so `|p| + |c| + 1` fuel always suffices. -/
def compMatchF : Nat → List Char → List Char → Bool
  | 0, _, _ => false
  | _ + 1, [], [] => true
  | _ + 1, [], _ :: _ => false
  | f + 1, '*' :: ps, [] => compMatchF f ps []
  | f + 1, '*' :: ps, c :: cs => compMatchF f ps (c :: cs) || compMatchF f ('*' :: ps) cs
  | _ + 1, _ :: _, [] => false
  | f + 1, p :: ps, c :: cs => (p = c || p = '?') && compMatchF f ps cs

def compMatch (p c : List Char) : Bool := compMatchF (p.length + c.length + 1) p c

/-- Path-pattern match over components, with `**` matching any run of
components; fuelled like `compMatchF`. -/
def pathMatchF : Nat → List String → List String → Bool
  | 0, _, _ => false
  | _ + 1, [], [] => true
  | _ + 1, [], _ :: _ => false
  | f + 1, "**" :: ps, [] => pathMatchF f ps []
  | f + 1, "**" :: ps, c :: cs => pathMatchF f ps (c :: cs) || pathMatchF f ("**" :: ps) cs
  | _ + 1, _ :: _, [] => false
  | f + 1, p :: ps, c :: cs => compMatch p.data c.data && pathMatchF f ps cs

def pathMatch (p c : List String) : Bool := pathMatchF (p.length + c.length + 1) p c

/-- Model of `Path(base).rglob(pat)`: match `pat` against the relative subpath at any
depth. -/
def rglobMatch (pat : String) (rel : List String) : Bool :=
  pathMatch ("**" :: splitSlash pat) rel

/-- Model of `Path(base).glob(pat)`: match `pat` against the relative subpath exactly. -/
def globMatch (pat : String) (rel : List String) : Bool :=
  pathMatch (splitSlash pat) rel

/-- File-selection block of `grep` (`tools.py` lines 132-150): candidate paths
searched for a given base path and (already truthiness-checked) glob filter. -/
def grepCandidates (fs : Fs) (base : String) (gp : Option String) : List String :=
  match gp with
  | some pat =>
    (fs.entries.filter (fun e =>
      match relParts base e.fst with
      | some rel => rglobMatch pat rel
      | none => false)).map (·.fst)
  | none =>
    match fs.stat base with
    | .file _ => [base]
    | .denied => [base]
    | _ =>
      let files := fs.entries.filter (fun e =>
        (match e.snd with | .file _ => true | .denied => true | _ => false) &&
        (relParts base e.fst).isSome && ! isHiddenUnder base e.fst)
      let files := files.filter (fun e => ! skip_exts.contains (pathSuffix e.fst))
      files.map (·.fst)

/-- Python `splitlines()` (no kept line endings) for `"\n"`-terminated text. -/
def splitLinesNoEnds (s : String) : List String :=
  (splitKeepEnds s).map (fun l => if strEndsWith l "\n" then l.dropRight 1 else l)

/-- Rows contributed by one matching line `i` of file `fp` (the inner loop of
`grep`): the context window with a `>` marker on the matching line. -/
def grepRows (fp : String) (lines : List String) (i : Nat) (ctx : Int) : List String :=
  let start : Int := max 0 ((i : Int) - ctx)
  let stop : Int := min (lines.length : Int) ((i : Int) + ctx + 1)
  ((List.range lines.length).filter
      (fun (j : Nat) => decide (start ≤ (j : Int)) && decide ((j : Int) < stop))).map
    (fun (j : Nat) => fp ++ ":" ++ toString (j + 1) ++ (if j = i then ">" else " ") ++ " " ++
      pyRstrip (lines.getD j ""))

/-- Model of `grep`.  The `re` module is an oracle: `re pat = none` models
`re.error` (invalid pattern), `re pat = some search` gives the line matcher of
the compiled regex.  `context` arithmetic is demanded only when some line
matches, as in the source. -/
def grep (pattern path glob_pattern context : JVal) (cfg : Conf)
    (re : String → Option (String → Bool)) (fs : Fs) : Except PyErr String × Fs :=
  match toStrVal path with
  | none => (.error (.typeError "argument should be a str or an os.PathLike object"), fs)
  | some pstr =>
    let base := resolvePath pstr cfg
    let gpE : Except PyErr (Option String) :=
      if pyTruthy glob_pattern then
        match toStrVal glob_pattern with
        | some g => .ok (some g)
        | none => .error (.typeError "argument should be a str (glob pattern)")
      else .ok none
    match gpE with
    | .error e => (.error e, fs)
    | .ok gp =>
      let files := grepCandidates fs base gp
      match toStrVal pattern with
      | none => (.error (.typeError "first argument must be string or compiled pattern"), fs)
      | some pat =>
        match re pat with
        | none => (.error (.toolError ("Invalid regex pattern: " ++ pat)), fs)
        | some search =>
          let readable := (sortStrings files).filterMap (fun p =>
            match fs.stat p with
            | .file c => some (p, splitLinesNoEnds c)
            | _ => none)
          let anyMatch := readable.any (fun pr => pr.snd.any (fun l => search l))
          if anyMatch && (toIntLike context).isNone then
            (.error (.typeError "unsupported operand type(s) for -"), fs)
          else
            let ctx := (toIntLike context).getD 0
            let folded := readable.foldl (fun acc pr =>
              (pr.snd.enum).foldl (fun acc2 il =>
                if search il.snd then
                  (acc2.fst + 1,
                   acc2.snd ++ grepRows pr.fst pr.snd il.fst ctx ++
                     (if pyTruthy context then ["--"] else []))
                else acc2) acc) ((0 : Nat), ([] : List String))
            if folded.snd.isEmpty then
              (.ok ("No matches for pattern /" ++ pat ++ "/"), fs)
            else
              (.ok ("Found " ++ toString folded.fst ++ " match(es) for /" ++ pat ++ "/\n" ++
                joinLines folded.snd), fs)

/-- Model of `glob_files` (tool name `glob`). -/
def glob_files (pattern path : JVal) (cfg : Conf) (fs : Fs) :
    Except PyErr String × Fs :=
  match toStrVal path with
  | none => (.error (.typeError "argument should be a str or an os.PathLike object"), fs)
  | some pstr =>
    let base := resolvePath pstr cfg
    match toStrVal pattern with
    | none => (.error (.typeError "argument should be a str (glob pattern)"), fs)
    | some pat =>
      let found := sortStrings ((fs.entries.filter (fun e =>
        match relParts base e.fst with
        | some rel => globMatch pat rel
        | none => false)).map (·.fst))
      if found.isEmpty then
        (.ok ("No files match pattern: " ++ pat ++ " in " ++ base), fs)
      else
        let cwd := cfg.working_dir
        let rel := found.map (fun m =>
          if strStartsWith m (cwd ++ "/") then m.drop (cwd.length + 1) else m)
        (.ok ("Found " ++ toString found.length ++ " file(s):\n" ++ joinLines rel), fs)

/-! ## Tool dispatch (`execute_tool`) -/

/-- Keyword-parameter signature of a tool's Python implementation (the `config`
keyword is reserved for the executor and is not a caller-suppliable name). -/
structure ToolSig where
  params : List String
  required : List String
  deriving DecidableEq, Repr

/-- Signatures of the six entries of `TOOL_DISPATCH`. -/
def toolSig : String → Option ToolSig
  | "read_file" => some ⟨["path", "offset", "limit"], ["path"]⟩
  | "write_file" => some ⟨["path", "content"], ["path", "content"]⟩
  | "edit_file" => some ⟨["path", "old_string", "new_string"], ["path", "old_string", "new_string"]⟩
  | "bash" => some ⟨["command"], ["command"]⟩
  | "grep" => some ⟨["pattern", "path", "glob_pattern", "context"], ["pattern"]⟩
  | "glob" => some ⟨["pattern", "path"], ["pattern"]⟩
  | _ => none

def jget (args : List (String × JVal)) (k : String) : Option JVal :=
  (args.find? (fun e => e.fst = k)).map (·.snd)

def jgetD (args : List (String × JVal)) (k : String) (d : JVal) : JVal :=
  (jget args k).getD d

/-- Whether `fn(**arguments, config=config)` raises `TypeError` at the call
itself: a required keyword is missing, or a keyword is not a parameter of the
tool (this includes `config`, which would be passed twice). -/
def bindingMismatch (sig : ToolSig) (args : List (String × JVal)) : Bool :=
  sig.required.any (fun r => (jget args r).isNone) ||
  args.any (fun e => ! sig.params.contains e.fst)

/-- Detail text standing in for `str(e)` of the binding `TypeError`. -/
def bindingDetail (sig : ToolSig) (args : List (String × JVal)) : String :=
  let missing := sig.required.filter (fun r => (jget args r).isNone)
  let unexpected := (args.map (·.fst)).filter (fun k => ! sig.params.contains k)
  String.intercalate "; "
    (missing.map (fun r => "missing a required argument: '" ++ r ++ "'") ++
     unexpected.map (fun k => "got an unexpected keyword argument '" ++ k ++ "'"))

/-- Dispatch to a tool body, applying the Python defaults of omitted optional
keywords. -/
def runTool (name : String) (args : List (String × JVal)) (cfg : Conf)
    (re : String → Option (String → Bool)) (sh : String → Option ShellOut)
    (fs : Fs) : Except PyErr String × Fs :=
  match name with
  | "read_file" =>
    read_file (jgetD args "path" .null) (jgetD args "offset" .null)
      (jgetD args "limit" .null) cfg fs
  | "write_file" =>
    write_file (jgetD args "path" .null) (jgetD args "content" .null) cfg fs
  | "edit_file" =>
    edit_file (jgetD args "path" .null) (jgetD args "old_string" .null)
      (jgetD args "new_string" .null) cfg fs
  | "bash" => bash (jgetD args "command" .null) cfg sh fs
  | "grep" =>
    grep (jgetD args "pattern" .null) (jgetD args "path" (.str "."))
      (jgetD args "glob_pattern" .null) (jgetD args "context" (.int 0)) cfg re fs
  | "glob" =>
    glob_files (jgetD args "pattern" .null) (jgetD args "path" (.str ".")) cfg fs
  | _ => (.error (.toolError "unreachable: dispatched unknown tool"), fs)

/-- Model of `execute_tool`: unknown names yield an error string; `ToolError`
and `TypeError` raised by the tool are converted to error-tagged strings; any
other exception propagates to the caller (an `Except.error` result). -/
def execute_tool (name : String) (args : List (String × JVal)) (cfg : Conf)
    (re : String → Option (String → Bool)) (sh : String → Option ShellOut)
    (fs : Fs) : Except PyErr String × Fs :=
  match toolSig name with
  | none => (.ok ("Error: Unknown tool '" ++ name ++ "'"), fs)
  | some sig =>
    if bindingMismatch sig args then
      (.ok ("Error: Wrong arguments for tool '" ++ name ++ "': " ++
        bindingDetail sig args), fs)
    else
      match runTool name args cfg re sh fs with
      | (.ok r, fs') => (.ok r, fs')
      | (.error (.toolError m), fs') => (.ok ("Error: " ++ m), fs')
      | (.error (.typeError m), fs') =>
        (.ok ("Error: Wrong arguments for tool '" ++ name ++ "': " ++ m), fs')
      | (.error e, fs') => (.error e, fs')

/-! ## OpenAI-endpoint agent (`src/agent.py` of the repository, the variant
streaming incremental tool-call deltas) -/

/-- One `tool_call_delta` of a streamed chunk: absent `id`/`name`/`arguments`
fields are empty strings (the source only appends truthy fragments, and
appending an empty string is the identity). -/
structure ToolCallDelta where
  index : Nat
  id : String
  name_delta : String
  arguments_delta : String
  deriving DecidableEq, Repr

/-- One streamed chunk (`chunk.choices[0].delta`). -/
structure Chunk where
  content : String
  tool_calls : List ToolCallDelta
  deriving DecidableEq, Repr

/-- One fully assembled tool-call request of the assistant message. -/
structure ToolCall where
  id : String
  name : String
  arguments : String
  deriving DecidableEq, Repr

/-- Processing of one `tool_call_delta` (`agent.py` lines 251-263): if the
list is too short, one placeholder entry is appended; indexing past the end of
the grown list is the `IndexError` the source would raise (`none`). -/
def stepToolCall (acc : List ToolCall) (d : ToolCallDelta) : Option (List ToolCall) :=
  let acc' := if acc.length ≤ d.index then acc ++ [⟨d.id, "", ""⟩] else acc
  if h : d.index < acc'.length then
    let tc := acc'.get ⟨d.index, h⟩
    some (acc'.set d.index
      { tc with name := tc.name ++ d.name_delta,
                arguments := tc.arguments ++ d.arguments_delta })
  else none

def stepToolCalls (acc : List ToolCall) : List ToolCallDelta → Option (List ToolCall)
  | [] => some acc
  | d :: ds =>
    match stepToolCall acc d with
    | some acc' => stepToolCalls acc' ds
    | none => none

/-- Streaming response assembly (`agent.py` lines 240-267): concatenate the
content deltas and fold the tool-call deltas; `none` is the uncaught
`IndexError`. -/
def assembleAux (content : String) (tcs : List ToolCall) :
    List Chunk → Option (String × List ToolCall)
  | [] => some (content, tcs)
  | ch :: rest =>
    match stepToolCalls tcs ch.tool_calls with
    | some tcs' => assembleAux (content ++ ch.content) tcs' rest
    | none => none

def assemble (chunks : List Chunk) : Option (String × List ToolCall) :=
  assembleAux "" [] chunks

/-- One conversation-history entry of the OpenAI-endpoint agent.  `tool_calls`
is empty for non-assistant messages; `tool_call_id`/`name` are empty for
messages whose dicts carry no such key. -/
structure Msg where
  role : String
  content : String
  tool_calls : List ToolCall
  tool_call_id : String
  name : String
  deriving DecidableEq, Repr

def userMsg (text : String) : Msg := ⟨"user", text, [], "", ""⟩

def assistantMsg (text : String) (tcs : List ToolCall) : Msg :=
  ⟨"assistant", text, tcs, "", ""⟩

/-- Tool-result message for one executed request (`agent.py` lines 288-293):
correlated to the request by `tool_call_id`.  `exec` is the environment's
combined `json.loads` + `execute_tool` step, a function of the tool name and
the raw argument text. -/
def toolResultMsg (exec : String → String → String) (tc : ToolCall) : Msg :=
  ⟨"tool", exec tc.name tc.arguments, [], tc.id, tc.name⟩

/-- Response of one model call: the `client.chat.completions.create` call
either raises (`failure`) or streams a chunk sequence. -/
inductive ModelResponse where
  | failure
  | stream (chunks : List Chunk)
  deriving DecidableEq, Repr

/-- Terminal state of one `run` invocation. -/
inductive RunOutcome where
  | done (text : String)
  | llmFailed
  | limitReached
  | assemblyError
  deriving DecidableEq, Repr

structure RunResult where
  messages : List Msg
  outcome : RunOutcome
  modelCalls : Nat
  deriving DecidableEq, Repr

/-- The agentic loop of `Agent.run` (`agent.py` lines 220-304).  `oracle k` is
the reply to the `(k+1)`-th model call; `fuel` is the number of remaining
iterations (`max_tool_iterations - iteration`); `calls` counts issued model
calls. -/
def runAux (exec : String → String → String) (oracle : Nat → ModelResponse)
    (msgs : List Msg) (calls : Nat) : Nat → RunResult
  | 0 => ⟨msgs, .limitReached, calls⟩
  | fuel + 1 =>
    match oracle calls with
    | .failure => ⟨msgs, .llmFailed, calls + 1⟩
    | .stream chunks =>
      match assemble chunks with
      | none => ⟨msgs, .assemblyError, calls + 1⟩
      | some (text, tcs) =>
        match tcs with
        | [] => ⟨msgs ++ [assistantMsg text []], .done text, calls + 1⟩
        | _ :: _ =>
          runAux exec oracle
            (msgs ++ assistantMsg text tcs :: tcs.map (toolResultMsg exec))
            (calls + 1) fuel

/-- Model of `Agent.run`: append the user turn, then loop up to `max_tool_iterations`
times. -/
def run (exec : String → String → String) (oracle : Nat → ModelResponse)
    (cap : Nat) (history : List Msg) (user_input : String) : RunResult :=
  runAux exec oracle (history ++ [userMsg user_input]) 0 cap

/-! ## Ollama-endpoint agent (the top-level `agent.py`) -/

/-- One complete tool call as delivered by the Ollama stream (arguments arrive
as an already-parsed mapping; `id` is absent on this provider's objects unless
set, whence the `getattr` default). -/
structure OToolCall where
  id : Option String
  name : String
  arguments : List (String × String)
  deriving DecidableEq, Repr

/-- One streamed Ollama chunk (`chunk.message`): empty strings model absent or
falsy `thinking`/`content`. -/
structure OChunk where
  thinking : String
  content : String
  tool_calls : List OToolCall
  deriving DecidableEq, Repr

/-- Serialized tool call stored on the assistant message
(`Agent._serialize_tool_calls`). -/
structure OSerToolCall where
  id : String
  name : String
  arguments : List (String × String)
  deriving DecidableEq, Repr

/-- One conversation-history entry of the Ollama-endpoint agent.  Its tool
messages are bare role-tool/content dicts: they carry no
tool-call id and no tool name. -/
structure OMsg where
  role : String
  content : String
  tool_calls : List OSerToolCall
  thinking : Option String
  deriving DecidableEq, Repr

def oUserMsg (text : String) : OMsg := ⟨"user", text, [], none⟩

/-- Stream-collection state of the Ollama loop: the pending thinking buffer,
the flushed thinking text, the content buffer, and the last nonempty
`tool_calls` seen. -/
structure OCollect where
  thinkBuf : String
  thinkText : String
  content : String
  tcs : List OToolCall
  deriving DecidableEq, Repr

/-- Folding one Ollama chunk (`agent.py` lines 235-258): thinking is buffered
and flushed on the first content token and on any tool-call chunk;
`tool_calls_received` is overwritten by each nonempty `msg.tool_calls`. -/
def oStep (st : OCollect) (ch : OChunk) : OCollect :=
  let st :=
    if ch.thinking ≠ "" then { st with thinkBuf := st.thinkBuf ++ ch.thinking } else st
  let st :=
    if ch.content ≠ "" then
      if st.thinkBuf ≠ "" ∧ st.content = "" then
        { st with thinkText := st.thinkBuf, thinkBuf := "", content := st.content ++ ch.content }
      else { st with content := st.content ++ ch.content }
    else st
  if ch.tool_calls ≠ [] then
    if st.thinkBuf ≠ "" then
      { st with thinkText := st.thinkBuf, thinkBuf := "", tcs := ch.tool_calls }
    else { st with tcs := ch.tool_calls }
  else st

/-- Collecting a whole Ollama stream, including the final thinking flush
(`agent.py` lines 261-266). -/
def oCollect (chunks : List OChunk) : OCollect :=
  let st := chunks.foldl oStep ⟨"", "", "", []⟩
  if st.thinkBuf ≠ "" then { st with thinkText := st.thinkBuf, thinkBuf := "" } else st

/-- Model of `Agent._serialize_tool_calls`: a missing provider id is replaced by a
positional `call_<i>` id. -/
def oSerialize (tcs : List OToolCall) : List OSerToolCall :=
  tcs.enum.map (fun pr => ⟨pr.snd.id.getD ("call_" ++ toString pr.fst), pr.snd.name, pr.snd.arguments⟩)

/-- Assistant message stored by the Ollama loop when tool calls were received
(`agent.py` lines 272-280): the `thinking` key is present only when the
flushed thinking text is nonempty. -/
def oAssistantMsg (st : OCollect) : OMsg :=
  ⟨"assistant", st.content, oSerialize st.tcs,
   if st.thinkText ≠ "" then some st.thinkText else none⟩

/-- Bare tool-result message of the Ollama loop (`agent.py` line 293). -/
def oToolResultMsg (exec : String → List (String × String) → String) (tc : OToolCall) : OMsg :=
  ⟨"tool", exec tc.name tc.arguments, [], none⟩

inductive OModelResponse where
  | failure
  | stream (chunks : List OChunk)
  deriving DecidableEq, Repr

structure ORunResult where
  messages : List OMsg
  outcome : RunOutcome
  modelCalls : Nat
  deriving DecidableEq, Repr

/-- The agentic loop of the Ollama `Agent.run` (top-level `agent.py` lines
212-303).  In its no-tool-calls branch the final assistant message is rendered
and `run` returns without appending it to the history. -/
def oRunAux (exec : String → List (String × String) → String)
    (oracle : Nat → OModelResponse) (msgs : List OMsg) (calls : Nat) : Nat → ORunResult
  | 0 => ⟨msgs, .limitReached, calls⟩
  | fuel + 1 =>
    match oracle calls with
    | .failure => ⟨msgs, .llmFailed, calls + 1⟩
    | .stream chunks =>
      let st := oCollect chunks
      match st.tcs with
      | [] => ⟨msgs, .done st.content, calls + 1⟩
      | _ :: _ =>
        oRunAux exec oracle
          (msgs ++ oAssistantMsg st :: st.tcs.map (oToolResultMsg exec))
          (calls + 1) fuel

def oRun (exec : String → List (String × String) → String)
    (oracle : Nat → OModelResponse) (cap : Nat) (history : List OMsg)
    (user_input : String) : ORunResult :=
  oRunAux exec oracle (history ++ [oUserMsg user_input]) 0 cap

/-! ## Helper lemmas -/

theorem strCount_pos_cases (content old : String) :
    strCount content old = 0 ∨ strCount content old = 1 ∨ 1 < strCount content old := by
  omega

/-! ## Claim C10 -/

/-- C10: for every readable file, `read_file` called with `offset = 0` (and no
limit) returns exactly the same result as `read_file` with `offset` omitted:
offset `0` is falsy, so it is treated as absent rather than as a 1-based
position, and the header carries no shown-range annotation. -/
theorem read_file_offset_zero_eq_absent (path : JVal) (cfg : Conf) (fs : Fs) :
    read_file path (.int 0) .null cfg fs = read_file path .null .null cfg fs := by
  cases path <;> simp only [read_file, toStrVal]
  case str p =>
    cases h : fs.stat (resolvePath p cfg) <;> simp [pyTruthy]

/-! ## Claim C7 -/

/-- C7: whenever the model call itself fails (the `create`/`chat` call raises),
both agent variants abort the `run` invocation at once: the failure is the
outcome surfaced to the caller, exactly one (the failed) model call was
attempted at that step with no retry, and the conversation history is exactly
what it was before the call. -/
theorem model_call_failure_aborts_run
    (exec : String → String → String) (oracle : Nat → ModelResponse)
    (msgs : List Msg) (calls fuel : Nat) (h : oracle calls = .failure)
    (oexec : String → List (String × String) → String)
    (ooracle : Nat → OModelResponse) (omsgs : List OMsg) (ocalls ofuel : Nat)
    (ho : ooracle ocalls = .failure) :
    runAux exec oracle msgs calls (fuel + 1) = ⟨msgs, .llmFailed, calls + 1⟩ ∧
    oRunAux oexec ooracle omsgs ocalls (ofuel + 1) = ⟨omsgs, .llmFailed, ocalls + 1⟩ := by
  constructor
  · simp [runAux, h]
  · simp [oRunAux, ho]

/-- Witness for C7: a first model call that fails leaves only the user turn in
the history, reports the failure and makes no further call. -/
theorem model_call_failure_aborts_run_witness :
    runAux (fun _ _ => "r") (fun _ => ModelResponse.failure) [userMsg "q"] 0 20 =
      ⟨[userMsg "q"], .llmFailed, 1⟩ ∧
    oRunAux (fun _ _ => "r") (fun _ => OModelResponse.failure) [oUserMsg "q"] 0 20 =
      ⟨[oUserMsg "q"], .llmFailed, 1⟩ :=
  model_call_failure_aborts_run (fun _ _ => "r") (fun _ => ModelResponse.failure)
    [userMsg "q"] 0 19 rfl (fun _ _ => "r") (fun _ => OModelResponse.failure)
    [oUserMsg "q"] 0 19 rfl

/-! ## Claim C9 -/

/-- Model responses for the `hello.txt` scenario: the first call streams one
`write_file` tool call, the second streams the plain text `done`. -/
def helloOracle : Nat → ModelResponse
  | 0 => .stream [⟨"", [⟨0, "call_1", "write_file",
      "\x7b\"path\": \"hello.txt\", \"content\": \"hi\"\x7d"⟩]⟩]
  | 1 => .stream [⟨"done", []⟩]
  | _ => .failure

/-- C9 (amended): on every writable target — the resolved path is absent or an
existing regular file — `write_file` returns a confirmation carrying the
resolved absolute path and the line count of the written content, never tagged
as an error; on the scenario input `hello.txt`/`"hi"` the text is exactly
`Written 1 lines to <abs>/hello.txt`, and the loop issues a second model call
after the tool result.  (On a target that is a directory or unwritable,
`write_text` raises instead and no confirmation is returned; see the
counterexample.) -/
theorem write_file_returns_confirmation (p c : String) (cfg : Conf) (fs : Fs)
    (hok : fs.stat (resolvePath p cfg) = .absent ∨
      ∃ old, fs.stat (resolvePath p cfg) = .file old) :
    (write_file (.str p) (.str c) cfg fs =
      (.ok ("Written " ++ toString (pyLineCount c) ++ " lines to " ++ resolvePath p cfg),
       fs.setFile (resolvePath p cfg) c)) ∧
    strStartsWith ("Written " ++ toString (pyLineCount c) ++ " lines to " ++
      resolvePath p cfg) "Error:" = false ∧
    (∀ exec : String → String → String,
      (run exec helloOracle 20 [] "create hello.txt").modelCalls = 2 ∧
      (run exec helloOracle 20 [] "create hello.txt").outcome = .done "done") := by
  refine ⟨?_, ?_, ?_⟩
  · rcases hok with h | ⟨old, h⟩ <;> simp [write_file, toStrVal, h]
  · cases hp : (resolvePath p cfg).data with
    | nil => simp [strStartsWith, String.data_append, hp, List.isPrefixOf]
    | cons a l => simp [strStartsWith, String.data_append, hp, List.isPrefixOf]
  · intro exec
    constructor <;> rfl

/-- Witness for C9: the scenario instance itself. -/
theorem write_file_returns_confirmation_witness :
    (write_file (.str "hello.txt") (.str "hi") ⟨"/home/user/proj", 30⟩ ⟨[]⟩ =
      (.ok "Written 1 lines to /home/user/proj/hello.txt",
       Fs.setFile ⟨[]⟩ "/home/user/proj/hello.txt" "hi")) ∧
    strStartsWith "Written 1 lines to /home/user/proj/hello.txt" "Error:" = false :=
  ⟨(write_file_returns_confirmation "hello.txt" "hi" ⟨"/home/user/proj", 30⟩ ⟨[]⟩
      (Or.inl (by decide))).1,
   by decide⟩

/-- C9 counterexample: with the target path naming an existing directory,
`write_file` raises `IsADirectoryError` from `write_text` (nothing in
`write_file` catches it) and returns no confirmation at all — refuting the
claim's `for every path and content string` universal. -/
theorem write_file_raises_on_directory_target :
    write_file (.str "d") (.str "hi") ⟨"/w", 30⟩ ⟨[("/w/d", .dir)]⟩ =
      (.error (.isADirectoryError "/w/d"), (⟨[("/w/d", .dir)]⟩ : Fs)) := by
  decide

/-! ## Claim C6 -/

/-- C6: on an existing readable file, `edit_file` fails with the not-found
error when `old_string` occurs zero times, fails with the ambiguity error when
it occurs more than once — leaving the filesystem untouched in both cases —
and succeeds exactly when it occurs once, replacing that single occurrence in
place.  Occurrence counting is Python `str.count` (non-overlapping, left to
right). -/
theorem edit_file_unique_occurrence_contract (path old new : String) (cfg : Conf)
    (fs : Fs) (content : String)
    (hfile : fs.stat (resolvePath path cfg) = .file content) :
    (strCount content old = 0 →
      edit_file (.str path) (.str old) (.str new) cfg fs =
        (.error (.toolError ("String not found in " ++ resolvePath path cfg ++
          ".\nMake sure to use the exact characters including whitespace.")), fs)) ∧
    (1 < strCount content old →
      edit_file (.str path) (.str old) (.str new) cfg fs =
        (.error (.toolError ("String appears " ++ toString (strCount content old) ++
          " times in " ++ resolvePath path cfg ++
          " — cannot replace unambiguously. Include more context (surrounding lines) in old_string.")),
         fs)) ∧
    (strCount content old = 1 →
      edit_file (.str path) (.str old) (.str new) cfg fs =
        (.ok ("Edited " ++ resolvePath path cfg ++ ": replaced " ++
          toString (splitKeepEnds old).length ++ " lines with " ++
          toString (splitKeepEnds new).length ++ " lines"),
         fs.setFile (resolvePath path cfg) (replaceFirst content old new))) ∧
    ((∃ r, (edit_file (.str path) (.str old) (.str new) cfg fs).fst = .ok r) ↔
      strCount content old = 1) := by
  refine ⟨?_, ?_, ?_, ?_⟩
  · intro h
    simp [edit_file, toStrVal, hfile, h]
  · intro h
    have h0 : ¬ strCount content old = 0 := by omega
    simp [edit_file, toStrVal, hfile, h0, h]
  · intro h
    simp [edit_file, toStrVal, hfile, h]
  · constructor
    · rintro ⟨r, hr⟩
      rcases strCount_pos_cases content old with h | h | h
      · simp [edit_file, toStrVal, hfile, h] at hr
      · exact h
      · have h0 : ¬ strCount content old = 0 := by omega
        simp [edit_file, toStrVal, hfile, h0, h] at hr
    · intro h
      refine ⟨"Edited " ++ resolvePath path cfg ++ ": replaced " ++
        toString (splitKeepEnds old).length ++ " lines with " ++
        toString (splitKeepEnds new).length ++ " lines", ?_⟩
      simp [edit_file, toStrVal, hfile, h]

/-- Concrete filesystem with a doubly-occurring needle for the C6 witness. -/
def fsEdit : Fs := ⟨[("/w/a.txt", .file "foofoo")]⟩

/-- Witness for C6: on a file containing `foofoo`, replacing `foo` fails as
ambiguous (Python counts 2 non-overlapping occurrences) and the filesystem is
unchanged. -/
theorem edit_file_unique_occurrence_contract_witness :
    (1 < strCount "foofoo" "foo") ∧
    edit_file (.str "a.txt") (.str "foo") (.str "X") ⟨"/w", 30⟩ fsEdit =
      (.error (.toolError ("String appears " ++ toString (strCount "foofoo" "foo") ++
        " times in " ++ resolvePath "a.txt" ⟨"/w", 30⟩ ++
        " — cannot replace unambiguously. Include more context (surrounding lines) in old_string.")),
       fsEdit) ∧
    resolvePath "a.txt" ⟨"/w", 30⟩ = "/w/a.txt" :=
  ⟨by decide,
   (edit_file_unique_occurrence_contract "a.txt" "foo" "X" ⟨"/w", 30⟩ fsEdit "foofoo"
      (by decide)).2.1 (by decide),
   by decide⟩

/-! ## Claim C5 -/

/-- C5 (amended): `execute_tool` converts an unknown tool name and every
argument mismatch surfacing as a `TypeError` (missing required key, unexpected
key, wrong type) into error-tagged result strings identifying the tool, and
converts domain `ToolError`s into `Error:`-tagged strings — none of these is
raised to the caller.  (The blanket `never raises` of the original claim fails
for exceptions outside the caught set; see the counterexample.) -/
theorem execute_tool_tags_errors (name : String) (args : List (String × JVal))
    (cfg : Conf) (re : String → Option (String → Bool)) (sh : String → Option ShellOut)
    (fs : Fs) :
    (toolSig name = none →
      execute_tool name args cfg re sh fs =
        (.ok ("Error: Unknown tool '" ++ name ++ "'"), fs)) ∧
    (∀ sig, toolSig name = some sig → bindingMismatch sig args = true →
      execute_tool name args cfg re sh fs =
        (.ok ("Error: Wrong arguments for tool '" ++ name ++ "': " ++
          bindingDetail sig args), fs)) ∧
    (∀ sig m fs', toolSig name = some sig → bindingMismatch sig args = false →
      runTool name args cfg re sh fs = (.error (.typeError m), fs') →
      execute_tool name args cfg re sh fs =
        (.ok ("Error: Wrong arguments for tool '" ++ name ++ "': " ++ m), fs')) ∧
    (∀ sig m fs', toolSig name = some sig → bindingMismatch sig args = false →
      runTool name args cfg re sh fs = (.error (.toolError m), fs') →
      execute_tool name args cfg re sh fs = (.ok ("Error: " ++ m), fs')) := by
  refine ⟨fun h => by simp [execute_tool, h], ?_, ?_, ?_⟩
  · intro sig hs hb
    simp [execute_tool, hs, hb]
  · intro sig m fs' hs hb hr
    simp [execute_tool, hs, hb, hr]
  · intro sig m fs' hs hb hr
    simp [execute_tool, hs, hb, hr]

/-- Witness for C5: an unknown tool name and a call missing required keywords
both yield error-tagged strings naming the tool. -/
theorem execute_tool_tags_errors_witness :
    execute_tool "nope" [] ⟨"/w", 30⟩ (fun _ => none) (fun _ => none) ⟨[]⟩ =
      (.ok "Error: Unknown tool 'nope'", (⟨[]⟩ : Fs)) ∧
    execute_tool "edit_file" [("path", .str "a.txt")] ⟨"/w", 30⟩
        (fun _ => none) (fun _ => none) ⟨[]⟩ =
      (.ok ("Error: Wrong arguments for tool 'edit_file': " ++
        bindingDetail ⟨["path", "old_string", "new_string"],
          ["path", "old_string", "new_string"]⟩ [("path", .str "a.txt")]), (⟨[]⟩ : Fs)) :=
  ⟨(execute_tool_tags_errors "nope" [] ⟨"/w", 30⟩ (fun _ => none) (fun _ => none) ⟨[]⟩).1 rfl,
   (execute_tool_tags_errors "edit_file" [("path", .str "a.txt")] ⟨"/w", 30⟩
      (fun _ => none) (fun _ => none) ⟨[]⟩).2.1 _ rfl (by decide)⟩

/-- C5 counterexample: with well-formed arguments whose `path` names a
directory, `edit_file`'s uncaught `IsADirectoryError` (its `read_text` catches
only `FileNotFoundError`, and `execute_tool` catches only `ToolError` and
`TypeError`) propagates out of `execute_tool` — refuting `never raises an
exception to its caller` for every name and argument mapping. -/
theorem execute_tool_raises_on_directory_edit :
    execute_tool "edit_file"
      [("path", .str "d"), ("old_string", .str "a"), ("new_string", .str "b")]
      ⟨"/w", 30⟩ (fun _ => none) (fun _ => none) ⟨[("/w/d", .dir)]⟩ =
      (.error (.isADirectoryError "/w/d"), (⟨[("/w/d", .dir)]⟩ : Fs)) := by
  decide

/-! ## Claim C1 -/

/-- Whether a model response assembles into a turn that contains tool calls. -/
def hasToolTurn : ModelResponse → Prop
  | .failure => False
  | .stream chunks => ∃ t tcs, assemble chunks = some (t, tcs) ∧ tcs ≠ []

def oHasToolTurn : OModelResponse → Prop
  | .failure => False
  | .stream chunks => (oCollect chunks).tcs ≠ []

theorem runAux_modelCalls_le (exec : String → String → String)
    (oracle : Nat → ModelResponse) :
    ∀ fuel msgs calls, (runAux exec oracle msgs calls fuel).modelCalls ≤ calls + fuel := by
  intro fuel
  induction fuel with
  | zero => intro msgs calls; simp [runAux]
  | succ n ih =>
    intro msgs calls
    cases h : oracle calls with
    | failure => simp [runAux, h]
    | stream chunks =>
      cases ha : assemble chunks with
      | none => simp [runAux, h, ha]
      | some pr =>
        obtain ⟨t, tcs⟩ := pr
        cases tcs with
        | nil => simp [runAux, h, ha]
        | cons a as =>
          have hrec := ih (msgs ++ assistantMsg t (a :: as) ::
            (a :: as).map (toolResultMsg exec)) (calls + 1)
          simp only [runAux, h, ha]
          omega

theorem runAux_all_tool_turns (exec : String → String → String)
    (oracle : Nat → ModelResponse) :
    ∀ fuel msgs calls,
      (∀ k, calls ≤ k → k < calls + fuel → hasToolTurn (oracle k)) →
      (runAux exec oracle msgs calls fuel).outcome = .limitReached ∧
      (runAux exec oracle msgs calls fuel).modelCalls = calls + fuel := by
  intro fuel
  induction fuel with
  | zero => intro msgs calls _; simp [runAux]
  | succ n ih =>
    intro msgs calls hall
    have h0 : hasToolTurn (oracle calls) := hall calls le_rfl (by omega)
    cases ho : oracle calls with
    | failure => rw [ho] at h0; exact absurd h0 (by simp [hasToolTurn])
    | stream chunks =>
      rw [ho] at h0
      obtain ⟨t, tcs, ha, hne⟩ := h0
      cases tcs with
      | nil => exact absurd rfl hne
      | cons a as =>
        have hrec := ih (msgs ++ assistantMsg t (a :: as) ::
            (a :: as).map (toolResultMsg exec)) (calls + 1)
          (fun k hk1 hk2 => hall k (by omega) (by omega))
        simp only [runAux, ho, ha]
        exact ⟨hrec.1, by rw [hrec.2]; omega⟩

theorem oRunAux_modelCalls_le (exec : String → List (String × String) → String)
    (oracle : Nat → OModelResponse) :
    ∀ fuel msgs calls, (oRunAux exec oracle msgs calls fuel).modelCalls ≤ calls + fuel := by
  intro fuel
  induction fuel with
  | zero => intro msgs calls; simp [oRunAux]
  | succ n ih =>
    intro msgs calls
    cases h : oracle calls with
    | failure => simp [oRunAux, h]
    | stream chunks =>
      cases htcs : (oCollect chunks).tcs with
      | nil => simp [oRunAux, h, htcs]
      | cons a as =>
        have hrec := ih (msgs ++ oAssistantMsg (oCollect chunks) ::
          (a :: as).map (oToolResultMsg exec)) (calls + 1)
        simp only [oRunAux, h, htcs]
        omega

theorem oRunAux_all_tool_turns (exec : String → List (String × String) → String)
    (oracle : Nat → OModelResponse) :
    ∀ fuel msgs calls,
      (∀ k, calls ≤ k → k < calls + fuel → oHasToolTurn (oracle k)) →
      (oRunAux exec oracle msgs calls fuel).outcome = .limitReached ∧
      (oRunAux exec oracle msgs calls fuel).modelCalls = calls + fuel := by
  intro fuel
  induction fuel with
  | zero => intro msgs calls _; simp [oRunAux]
  | succ n ih =>
    intro msgs calls hall
    have h0 : oHasToolTurn (oracle calls) := hall calls le_rfl (by omega)
    cases ho : oracle calls with
    | failure => rw [ho] at h0; exact absurd h0 (by simp [oHasToolTurn])
    | stream chunks =>
      rw [ho] at h0
      simp only [oHasToolTurn] at h0
      cases htcs : (oCollect chunks).tcs with
      | nil => exact absurd htcs h0
      | cons a as =>
        have hrec := ih (msgs ++ oAssistantMsg (oCollect chunks) ::
            (a :: as).map (oToolResultMsg exec)) (calls + 1)
          (fun k hk1 hk2 => hall k (by omega) (by omega))
        simp only [oRunAux, ho, htcs]
        exact ⟨hrec.1, by rw [hrec.2]; omega⟩

/-- C1: both agent loops issue at most `max_tool_iterations` model calls per
`run` invocation; and when every assembled turn up to the cap still contains
tool calls, the loop stops reporting the iteration limit after exactly `cap`
model calls, issuing no further one. -/
theorem run_respects_iteration_cap (exec : String → String → String)
    (oracle : Nat → ModelResponse) (history : List Msg) (u : String) (cap : Nat)
    (oexec : String → List (String × String) → String)
    (ooracle : Nat → OModelResponse) (ohistory : List OMsg) :
    ((run exec oracle cap history u).modelCalls ≤ cap ∧
      ((∀ k, k < cap → hasToolTurn (oracle k)) →
        (run exec oracle cap history u).outcome = .limitReached ∧
        (run exec oracle cap history u).modelCalls = cap)) ∧
    ((oRun oexec ooracle cap ohistory u).modelCalls ≤ cap ∧
      ((∀ k, k < cap → oHasToolTurn (ooracle k)) →
        (oRun oexec ooracle cap ohistory u).outcome = .limitReached ∧
        (oRun oexec ooracle cap ohistory u).modelCalls = cap)) := by
  refine ⟨⟨?_, ?_⟩, ⟨?_, ?_⟩⟩
  · simpa [run] using runAux_modelCalls_le exec oracle cap (history ++ [userMsg u]) 0
  · intro hall
    have := runAux_all_tool_turns exec oracle cap (history ++ [userMsg u]) 0
      (fun k _ hk => hall k (by omega))
    simpa [run] using this
  · simpa [oRun] using oRunAux_modelCalls_le oexec ooracle cap (ohistory ++ [oUserMsg u]) 0
  · intro hall
    have := oRunAux_all_tool_turns oexec ooracle cap (ohistory ++ [oUserMsg u]) 0
      (fun k _ hk => hall k (by omega))
    simpa [oRun] using this

/-- Constant model responses that always request one tool call, for the C1
witness (the runaway-loop scenario). -/
def toolOracle : Nat → ModelResponse := fun _ => .stream [⟨"", [⟨0, "i", "t", "\x7b\x7d"⟩]⟩]

def oToolOracle : Nat → OModelResponse := fun _ => .stream [⟨"", "", [⟨none, "t", []⟩]⟩]

/-- Witness for C1: with `max_tool_iterations = 20` and every turn requesting
a tool call, both loops make exactly 20 model calls and stop at the limit. -/
theorem run_respects_iteration_cap_witness :
    (run (fun _ _ => "r") toolOracle 20 [] "q").modelCalls ≤ 20 ∧
    (run (fun _ _ => "r") toolOracle 20 [] "q").outcome = .limitReached ∧
    (run (fun _ _ => "r") toolOracle 20 [] "q").modelCalls = 20 ∧
    (oRun (fun _ _ => "r") oToolOracle 20 [] "q").outcome = .limitReached ∧
    (oRun (fun _ _ => "r") oToolOracle 20 [] "q").modelCalls = 20 := by
  have h := run_respects_iteration_cap (fun _ _ => "r") toolOracle [] "q" 20
    (fun _ _ => "r") oToolOracle []
  have htool : ∀ k, hasToolTurn (toolOracle k) := fun k =>
    ⟨"", [⟨"i", "t", "\x7b\x7d"⟩], rfl,
      (by decide : ¬ ([⟨"i", "t", "\x7b\x7d"⟩] : List ToolCall) = [])⟩
  have hotool : ∀ k, oHasToolTurn (oToolOracle k) := fun k =>
    (by decide : ¬ (oCollect [⟨"", "", [⟨none, "t", []⟩]⟩]).tcs = [])
  have h1 := h.1.2 (fun k _ => htool k)
  have h2 := h.2.2 (fun k _ => hotool k)
  exact ⟨h.1.1, h1.1, h1.2, h2.1, h2.2⟩

/-! ## Claim C3 -/

/-- Concatenation of the streamed content deltas. -/
def contentConcat : List Chunk → String
  | [] => ""
  | ch :: rest => ch.content ++ contentConcat rest

theorem assemble_no_tool_deltas :
    ∀ (chunks : List Chunk) (s : String) (tcs : List ToolCall),
      (∀ ch ∈ chunks, ch.tool_calls = []) →
      assembleAux s tcs chunks = some (s ++ contentConcat chunks, tcs) := by
  intro chunks
  induction chunks with
  | nil => intro s tcs _; simp [assembleAux, contentConcat]
  | cons ch rest ih =>
    intro s tcs hall
    have hch : ch.tool_calls = [] := hall ch (by simp)
    simp only [assembleAux, hch, stepToolCalls, contentConcat]
    rw [ih (s ++ ch.content) tcs (fun c hc => hall c (by simp [hc]))]
    rw [String.append_assoc]

theorem oStep_tcs (st : OCollect) (ch : OChunk) :
    (oStep st ch).tcs = if ch.tool_calls = [] then st.tcs else ch.tool_calls := by
  simp only [oStep]
  by_cases h3 : ch.tool_calls = [] <;> simp [h3] <;> (repeat' split) <;> rfl

theorem oCollect_tcs_of_no_tool_deltas (chunks : List OChunk)
    (h : ∀ ch ∈ chunks, ch.tool_calls = []) : (oCollect chunks).tcs = [] := by
  have main : ∀ (l : List OChunk) (st : OCollect), (∀ ch ∈ l, ch.tool_calls = []) →
      (l.foldl oStep st).tcs = st.tcs := by
    intro l
    induction l with
    | nil => intro st _; rfl
    | cons ch rest ih =>
      intro st hall
      have hch := hall ch (by simp)
      rw [List.foldl_cons, ih _ (fun c hc => hall c (by simp [hc])), oStep_tcs, if_pos hch]
  have hfold : (chunks.foldl oStep ⟨"", "", "", []⟩).tcs = [] := main chunks ⟨"", "", "", []⟩ h
  simp only [oCollect]
  split <;> simp_all

/-- C3 (amended): a model call whose stream carries no tool-call deltas
assembles to a turn with an empty `tool_calls` sequence, terminates the loop
in the done state after exactly one model call of that cycle and returns the
assistant text; the OpenAI-endpoint agent appends the `AssistantTurn` to the
history, while the Ollama-endpoint agent returns the text without appending
the final `AssistantTurn`. -/
theorem no_tool_calls_one_call_done (exec : String → String → String)
    (oracle : Nat → ModelResponse) (cap : Nat) (history : List Msg) (u : String)
    (chunks : List Chunk) (hcap : 0 < cap) (h0 : oracle 0 = .stream chunks)
    (hno : ∀ ch ∈ chunks, ch.tool_calls = [])
    (oexec : String → List (String × String) → String)
    (ooracle : Nat → OModelResponse) (ohistory : List OMsg) (ochunks : List OChunk)
    (oh0 : ooracle 0 = .stream ochunks) (ohno : ∀ ch ∈ ochunks, ch.tool_calls = []) :
    run exec oracle cap history u =
      ⟨history ++ [userMsg u, assistantMsg (contentConcat chunks) []],
       .done (contentConcat chunks), 1⟩ ∧
    oRun oexec ooracle cap ohistory u =
      ⟨ohistory ++ [oUserMsg u], .done (oCollect ochunks).content, 1⟩ := by
  obtain ⟨n, rfl⟩ : ∃ n, cap = n + 1 := ⟨cap - 1, by omega⟩
  constructor
  · have ha : assemble chunks = some (contentConcat chunks, []) := by
      simpa [assemble] using assemble_no_tool_deltas chunks "" [] hno
    simp [run, runAux, h0, ha]
  · have htcs := oCollect_tcs_of_no_tool_deltas ochunks ohno
    simp [oRun, oRunAux, oh0, htcs]

/-- Constant plain-text model responses for the C3 witness. -/
def doneOracle : Nat → ModelResponse := fun _ => .stream [⟨"hi", []⟩]

def oDoneOracle : Nat → OModelResponse := fun _ => .stream [⟨"", "hello", []⟩]

/-- Witness for C3: a plain-text reply ends the run in one model call; the
OpenAI-endpoint history gains the assistant turn, the Ollama history does not. -/
theorem no_tool_calls_one_call_done_witness :
    run (fun _ _ => "r") doneOracle 20 [] "q" =
      ⟨[userMsg "q", assistantMsg (contentConcat [⟨"hi", []⟩]) []],
       .done (contentConcat [⟨"hi", []⟩]), 1⟩ ∧
    oRun (fun _ _ => "r") oDoneOracle 20 [] "q" =
      ⟨[oUserMsg "q"], .done (oCollect [⟨"", "hello", []⟩]).content, 1⟩ := by
  have h := no_tool_calls_one_call_done (fun _ _ => "r") doneOracle 20 [] "q"
    [⟨"hi", []⟩] (by omega) rfl (by simp)
    (fun _ _ => "r") oDoneOracle [] [⟨"", "hello", []⟩] rfl (by simp)
  simpa using h

/-- C3 counterexample: the Ollama-endpoint agent terminates in the done state
with the assistant text, but its conversation history holds only the user turn
afterwards — no `AssistantTurn` was appended, refuting the claim's `appended
to the conversation history` conjunct for this agent. -/
theorem final_text_not_appended_by_ollama_agent :
    oRun (fun _ _ => "r") (fun _ => .stream [⟨"", "hello", []⟩]) 20 [] "hi" =
      ⟨[oUserMsg "hi"], .done "hello", 1⟩ ∧
    ((oRun (fun _ _ => "r") (fun _ => .stream [⟨"", "hello", []⟩]) 20 [] "hi").messages.all
      (fun m => m.role ≠ "assistant")) = true := by
  decide

/-! ## Claim C2 -/

/-- All tool-call deltas of a stream, in arrival order. -/
def deltasOf : List Chunk → List ToolCallDelta
  | [] => []
  | ch :: rest => ch.tool_calls ++ deltasOf rest

def strJoin : List String → String
  | [] => ""
  | s :: rest => s ++ strJoin rest

/-- Ordered concatenation of the `arguments_delta` fragments carrying index
`i`. -/
def argsConcat (ds : List ToolCallDelta) (i : Nat) : String :=
  strJoin ((ds.filter (fun d => d.index = i)).map (·.arguments_delta))

theorem strJoin_append (a b : List String) :
    strJoin (a ++ b) = strJoin a ++ strJoin b := by
  induction a with
  | nil => simp [strJoin]
  | cons x xs ih => simp [strJoin, ih, String.append_assoc]

theorem argsConcat_append_singleton (p : List ToolCallDelta) (d : ToolCallDelta) (i : Nat) :
    argsConcat (p ++ [d]) i =
      argsConcat p i ++ (if d.index = i then d.arguments_delta else "") := by
  simp only [argsConcat, List.filter_append]
  rw [List.map_append, strJoin_append]
  by_cases h : d.index = i <;> simp [h, strJoin]

theorem argsConcat_eq_empty (p : List ToolCallDelta) (i : Nat)
    (h : ∀ d ∈ p, d.index ≠ i) : argsConcat p i = "" := by
  have hf : p.filter (fun d => d.index = i) = [] := by
    rw [List.filter_eq_nil_iff]
    intro d hd
    simp [h d hd]
  simp [argsConcat, hf, strJoin]

/-- Behaviour of one delta step when its index points at the end of the grown
list: a fresh request is appended and immediately updated. -/
theorem stepToolCall_eq_append (acc : List ToolCall) (d : ToolCallDelta)
    (h : d.index = acc.length) :
    stepToolCall acc d =
      some (acc ++ [⟨d.id, "" ++ d.name_delta, "" ++ d.arguments_delta⟩]) := by
  obtain ⟨idx, di, dn, da⟩ := d
  simp only at h
  subst h
  simp [stepToolCall, List.getElem_concat_length, List.set_append]

/-- Behaviour of one delta step on an already-created index: in-place update. -/
theorem stepToolCall_eq_set (acc : List ToolCall) (d : ToolCallDelta)
    (h : d.index < acc.length) :
    stepToolCall acc d = some (acc.set d.index
      ⟨(acc.get ⟨d.index, h⟩).id, (acc.get ⟨d.index, h⟩).name ++ d.name_delta,
       (acc.get ⟨d.index, h⟩).arguments ++ d.arguments_delta⟩) := by
  simp [stepToolCall, Nat.not_le.mpr h, h, Nat.lt_of_lt_of_le h (Nat.le_refl _)]

/-- Behaviour of one delta step whose index skips past the end: the
`IndexError` of `tool_calls[tc_delta.index]`. -/
theorem stepToolCall_eq_none (acc : List ToolCall) (d : ToolCallDelta)
    (h : acc.length < d.index) :
    stepToolCall acc d = none := by
  simp [stepToolCall, Nat.le_of_lt h]
  omega

/-- Invariant tying the in-progress request list to the processed delta
history: every seen index is in range, every position was created by some
delta, and each position's argument text is the ordered concatenation of its
fragments. -/
def IndexInv (p : List ToolCallDelta) (acc : List ToolCall) : Prop :=
  (∀ d ∈ p, d.index < acc.length) ∧
  (∀ i, i < acc.length → ∃ d ∈ p, d.index = i) ∧
  (∀ i (h : i < acc.length), (acc.get ⟨i, h⟩).arguments = argsConcat p i)

theorem stepToolCall_inv (p : List ToolCallDelta) (acc acc₂ : List ToolCall)
    (d : ToolCallDelta) (hinv : IndexInv p acc)
    (hs : stepToolCall acc d = some acc₂) : IndexInv (p ++ [d]) acc₂ := by
  obtain ⟨inv1, inv2, inv3⟩ := hinv
  rcases Nat.lt_trichotomy d.index acc.length with hlt | heq | hgt
  · rw [stepToolCall_eq_set acc d hlt] at hs
    obtain rfl := Option.some.inj hs
    refine ⟨?_, ?_, ?_⟩
    · intro d' hd'
      rw [List.length_set]
      rcases List.mem_append.mp hd' with hmem | hmem
      · exact inv1 d' hmem
      · rw [List.mem_singleton] at hmem
        subst hmem
        exact hlt
    · intro i hi
      rw [List.length_set] at hi
      obtain ⟨d', hd', hdi⟩ := inv2 i hi
      exact ⟨d', List.mem_append_left _ hd', hdi⟩
    · intro i hi
      have hi' : i < acc.length := by simpa using hi
      have h3 := inv3 i hi'
      rw [List.get_eq_getElem] at h3 ⊢
      rw [argsConcat_append_singleton]
      by_cases he : d.index = i
      · subst he
        have h3' := inv3 d.index hlt
        rw [List.get_eq_getElem] at h3'
        simp [List.getElem_set, List.get_eq_getElem, h3']
      · simp [List.getElem_set, List.get_eq_getElem, he, h3]
  · rw [stepToolCall_eq_append acc d heq] at hs
    obtain rfl := Option.some.inj hs
    refine ⟨?_, ?_, ?_⟩
    · intro d' hd'
      simp only [List.length_append, List.length_cons, List.length_nil]
      rcases List.mem_append.mp hd' with hmem | hmem
      · have := inv1 d' hmem
        omega
      · rw [List.mem_singleton] at hmem
        subst hmem
        omega
    · intro i hi
      simp only [List.length_append, List.length_cons, List.length_nil] at hi
      rcases (by omega : i < acc.length ∨ i = acc.length) with hlt | hE
      · obtain ⟨d', hd', hdi⟩ := inv2 i hlt
        exact ⟨d', List.mem_append_left _ hd', hdi⟩
      · exact ⟨d, List.mem_append_right _ (List.mem_singleton.mpr rfl), by omega⟩
    · intro i hi
      have hi2 : i < acc.length + 1 := by simpa using hi
      rw [List.get_eq_getElem, argsConcat_append_singleton]
      rcases (by omega : i < acc.length ∨ i = acc.length) with hlt | hE
      · rw [List.getElem_append_left hlt]
        have h3 := inv3 i hlt
        rw [List.get_eq_getElem] at h3
        have hne : ¬ d.index = i := by omega
        simp [h3, hne]
      · subst hE
        rw [List.getElem_concat_length acc _ acc.length rfl]
        rw [argsConcat_eq_empty p acc.length (fun d' hd' => by have := inv1 d' hd'; omega),
          if_pos heq]
  · rw [stepToolCall_eq_none acc d hgt] at hs
    cases hs

theorem stepToolCalls_inv :
    ∀ (ds p : List ToolCallDelta) (acc l : List ToolCall),
      IndexInv p acc → stepToolCalls acc ds = some l → IndexInv (p ++ ds) l := by
  intro ds
  induction ds with
  | nil =>
    intro p acc l hinv hs
    obtain rfl : acc = l := by injection hs
    simpa using hinv
  | cons d ds ih =>
    intro p acc l hinv hs
    unfold stepToolCalls at hs
    cases hstep : stepToolCall acc d with
    | none => rw [hstep] at hs; cases hs
    | some acc' =>
      rw [hstep] at hs
      have h1 := stepToolCall_inv p acc acc' d hinv hstep
      have h2 := ih (p ++ [d]) acc' l h1 hs
      simpa [List.append_assoc] using h2

theorem stepToolCalls_append (ds1 ds2 : List ToolCallDelta) :
    ∀ acc, stepToolCalls acc (ds1 ++ ds2) =
      match stepToolCalls acc ds1 with
      | some m => stepToolCalls m ds2
      | none => none := by
  induction ds1 with
  | nil => intro acc; rfl
  | cons d ds ih =>
    intro acc
    simp only [List.cons_append, stepToolCalls]
    cases stepToolCall acc d <;> simp [ih]

theorem assembleAux_deltas :
    ∀ (chunks : List Chunk) (s : String) (tcs : List ToolCall) (t : String)
      (l : List ToolCall), assembleAux s tcs chunks = some (t, l) →
      stepToolCalls tcs (deltasOf chunks) = some l := by
  intro chunks
  induction chunks with
  | nil =>
    intro s tcs t l h
    simp only [assembleAux, Option.some.injEq, Prod.mk.injEq] at h
    simp [deltasOf, stepToolCalls, h.2]
  | cons ch rest ih =>
    intro s tcs t l h
    unfold assembleAux at h
    cases hstep : stepToolCalls tcs ch.tool_calls with
    | none => rw [hstep] at h; cases h
    | some tcs' =>
      rw [hstep] at h
      have hrec := ih (s ++ ch.content) tcs' t l h
      simp only [deltasOf]
      rw [stepToolCalls_append, hstep]
      exact hrec

/-- C2 (amended): whenever the stream's tool-call deltas arrive in an order
the assembler accepts (each first sight of an index lands at the end of the
list, as OpenAI streams emit them), the assembler produces exactly K
`ToolCallRequest`s for K distinct indices, and the argument text of the
request at each index is the arrival-order concatenation of that index's
`arguments_delta` fragments.  (For other arrival orders the assembly raises;
see the counterexample.) -/
theorem assembler_request_reconstruction (chunks : List Chunk) (text : String)
    (tcs : List ToolCall) (h : assemble chunks = some (text, tcs)) :
    tcs.length = ((deltasOf chunks).map ToolCallDelta.index).toFinset.card ∧
    ∀ i (hi : i < tcs.length),
      (tcs.get ⟨i, hi⟩).arguments = argsConcat (deltasOf chunks) i := by
  have hstep : stepToolCalls [] (deltasOf chunks) = some tcs :=
    assembleAux_deltas chunks "" [] text tcs h
  have h0 : IndexInv [] [] := by
    refine ⟨by simp, by simp, ?_⟩
    intro i hi
    simp at hi
  have hinv : IndexInv (deltasOf chunks) tcs := by
    simpa using stepToolCalls_inv (deltasOf chunks) [] [] tcs h0 hstep
  refine ⟨?_, hinv.2.2⟩
  have hset : ((deltasOf chunks).map ToolCallDelta.index).toFinset =
      Finset.range tcs.length := by
    ext i
    simp only [List.mem_toFinset, List.mem_map, Finset.mem_range]
    constructor
    · rintro ⟨d, hd, rfl⟩
      exact hinv.1 d hd
    · intro hi
      obtain ⟨d, hd, hdi⟩ := hinv.2.1 i hi
      exact ⟨d, hd, hdi⟩
  rw [hset, Finset.card_range]

/-- Stream used by the C2 witness: two interleaved tool calls whose argument
fragments arrive across chunks. -/
def wChunks : List Chunk :=
  [⟨"", [⟨0, "idA", "wri", "\x7b\"pa"⟩, ⟨1, "idB", "grep", "\x7b\x7d"⟩]⟩,
   ⟨"", [⟨0, "", "te_file", "th\": \"a\"\x7d"⟩]⟩]

/-- Witness for C2: on a two-index stream the assembler yields 2 requests and
reconstructs each argument text by concatenation. -/
theorem assembler_request_reconstruction_witness :
    (([⟨"idA", "write_file", "\x7b\"path\": \"a\"\x7d"⟩, ⟨"idB", "grep", "\x7b\x7d"⟩] :
        List ToolCall).length =
      ((deltasOf wChunks).map ToolCallDelta.index).toFinset.card) ∧
    (([⟨"idA", "write_file", "\x7b\"path\": \"a\"\x7d"⟩, ⟨"idB", "grep", "\x7b\x7d"⟩] :
        List ToolCall).get ⟨0, by decide⟩).arguments = argsConcat (deltasOf wChunks) 0 :=
  ⟨(assembler_request_reconstruction wChunks "" _ (by decide)).1,
   (assembler_request_reconstruction wChunks "" _ (by decide)).2 0 (by decide)⟩

/-- C2 counterexample: a single delta arriving with index 1 (one distinct
index, out-of-order first sight) makes the source raise `IndexError` — the
grown list has length 1 and `tool_calls[1]` is out of range — so no
`ToolCallRequest` at all is produced, refuting the claim for arbitrary
arrival orders. -/
theorem assembler_crashes_on_gapped_index :
    assemble [⟨"", [⟨1, "idA", "f", "x"⟩]⟩] = none ∧
    ((deltasOf [⟨"", [⟨1, "idA", "f", "x"⟩]⟩]).map ToolCallDelta.index).toFinset.card = 1 := by
  decide

/-! ## Claim C4 -/

/-- A list of turns in which every assistant turn is immediately followed by
exactly its own result messages, in request order. -/
def resultsFollow {α : Type} (isAsst : α → Bool) (results : α → List α)
    (l : List α) : Prop :=
  ∀ l1 m l2, l = l1 ++ m :: l2 → isAsst m = true →
    l2.take (results m).length = results m

theorem resultsFollow_nil {α : Type} (isAsst : α → Bool) (results : α → List α) :
    resultsFollow isAsst results [] := by
  intro l1 m l2 heq _
  exact absurd heq.symm (by simp)

theorem resultsFollow_append_block {α : Type} (isAsst : α → Bool)
    (results : α → List α) (l : List α) (hl : resultsFollow isAsst results l)
    (am : α) (hres : ∀ x ∈ results am, isAsst x = false) :
    resultsFollow isAsst results (l ++ am :: results am) := by
  intro l1 m l2 heq hm
  rcases List.append_eq_append_iff.mp heq.symm with ⟨x, hx1, hx2⟩ | ⟨y, hy1, hy2⟩
  · cases x with
    | nil =>
      simp only [List.nil_append] at hx2
      injection hx2 with h1 h2
      subst h1
      subst h2
      rw [List.take_length]
    | cons x0 xs =>
      simp only [List.cons_append] at hx2
      injection hx2 with h1 h2
      subst h1
      subst h2
      have hdecomp : l = l1 ++ m :: xs := hx1
      have htake := hl l1 m xs hdecomp hm
      have hlen : (results m).length ≤ xs.length := by
        have := congrArg List.length htake
        simp only [List.length_take] at this
        omega
      rw [List.take_append_of_le_length hlen, htake]
  · cases y with
    | nil =>
      simp only [List.nil_append] at hy2
      injection hy2 with h1 h2
      subst h1
      subst h2
      rw [List.take_length]
    | cons y0 ys =>
      simp only [List.cons_append] at hy2
      injection hy2 with h1 h2
      subst h1
      have hmem : m ∈ results am := by
        rw [h2]
        exact List.mem_append_right _ (List.mem_cons_self m l2)
      rw [hres m hmem] at hm
      cases hm

theorem resultsFollow_append_single {α : Type} (isAsst : α → Bool)
    (results : α → List α) (l : List α) (hl : resultsFollow isAsst results l)
    (x : α) (hx : isAsst x = false) :
    resultsFollow isAsst results (l ++ [x]) := by
  intro l1 m l2 heq hm
  rcases List.append_eq_append_iff.mp heq.symm with ⟨w, hw1, hw2⟩ | ⟨y, hy1, hy2⟩
  · cases w with
    | nil =>
      simp only [List.nil_append] at hw2
      injection hw2 with h1 h2
      subst h1
      rw [hx] at hm
      cases hm
    | cons w0 ws =>
      simp only [List.cons_append] at hw2
      injection hw2 with h1 h2
      subst h1
      subst h2
      have htake := hl l1 m ws hw1 hm
      have hlen : (results m).length ≤ ws.length := by
        have := congrArg List.length htake
        simp only [List.length_take] at this
        omega
      rw [List.take_append_of_le_length hlen, htake]
  · cases y with
    | nil =>
      simp only [List.nil_append] at hy2
      injection hy2 with h1 h2
      subst h1
      rw [hx] at hm
      cases hm
    | cons y0 ys =>
      simp only [List.cons_append] at hy2
      injection hy2 with h1 h2
      exact absurd h2.symm (by simp)

/-- Assistant-turn recogniser on OpenAI-endpoint history entries. -/
def msgIsAssistant (m : Msg) : Bool := m.role == "assistant"

/-- The tool-result messages one assistant turn demands, in request order. -/
def msgResults (exec : String → String → String) (m : Msg) : List Msg :=
  m.tool_calls.map (toolResultMsg exec)

theorem runAux_resultsFollow (exec : String → String → String)
    (oracle : Nat → ModelResponse) :
    ∀ fuel msgs calls, resultsFollow msgIsAssistant (msgResults exec) msgs →
      resultsFollow msgIsAssistant (msgResults exec)
        (runAux exec oracle msgs calls fuel).messages := by
  intro fuel
  induction fuel with
  | zero => intro msgs calls h; simpa [runAux] using h
  | succ n ih =>
    intro msgs calls h
    cases ho : oracle calls with
    | failure => simpa [runAux, ho] using h
    | stream chunks =>
      cases ha : assemble chunks with
      | none => simpa [runAux, ho, ha] using h
      | some pr =>
        obtain ⟨t, tcs⟩ := pr
        have hres : ∀ x ∈ msgResults exec (assistantMsg t tcs), msgIsAssistant x = false := by
          intro x hx
          simp only [msgResults, List.mem_map] at hx
          obtain ⟨tc, _, rfl⟩ := hx
          rfl
        have hblock := resultsFollow_append_block msgIsAssistant (msgResults exec)
          msgs h (assistantMsg t tcs) hres
        cases tcs with
        | nil => simpa [runAux, ho, ha, msgResults, assistantMsg] using hblock
        | cons a as =>
          simp only [runAux, ho, ha]
          exact ih _ _ hblock

/-- C4 (amended): in the OpenAI-endpoint agent, any history in which every
assistant turn is immediately followed by exactly its own tool results — in
request order, each carrying the originating request's id and tool name — is
preserved by `run`: every `AssistantTurn` with N `ToolCallRequest`s is followed
by exactly N `ToolResultTurn`s before anything else, ordered as the requests
and id-correlated.  (The Ollama-endpoint agent appends its results in order
too, but its tool messages carry no correlation id; see the counterexample.) -/
theorem tool_results_follow_requests (exec : String → String → String)
    (oracle : Nat → ModelResponse) (cap : Nat) (history : List Msg) (u : String)
    (h : resultsFollow msgIsAssistant (msgResults exec) history) :
    resultsFollow msgIsAssistant (msgResults exec)
      (run exec oracle cap history u).messages ∧
    (∀ tc : ToolCall, (toolResultMsg exec tc).tool_call_id = tc.id ∧
      (toolResultMsg exec tc).role = "tool" ∧ (toolResultMsg exec tc).name = tc.name) := by
  constructor
  · exact runAux_resultsFollow exec oracle cap (history ++ [userMsg u]) 0
      (resultsFollow_append_single msgIsAssistant (msgResults exec) history h
        (userMsg u) rfl)
  · intro tc
    exact ⟨rfl, rfl, rfl⟩

/-- Witness for C4: a run over the constant tool-requesting oracle satisfies
the correlation invariant, starting from the empty history. -/
theorem tool_results_follow_requests_witness :
    resultsFollow msgIsAssistant (msgResults (fun _ _ => "r"))
      (run (fun _ _ => "r") toolOracle 3 [] "q").messages ∧
    (toolResultMsg (fun _ _ => "r") ⟨"i", "t", "\x7b\x7d"⟩).tool_call_id = "i" :=
  ⟨(tool_results_follow_requests (fun _ _ => "r") toolOracle 3 [] "q"
      (resultsFollow_nil _ _)).1,
   ((tool_results_follow_requests (fun _ _ => "r") toolOracle 3 [] "q"
      (resultsFollow_nil _ _)).2 ⟨"i", "t", "\x7b\x7d"⟩).1⟩

/-- Model responses for the C4 counterexample: one tool call, then plain text. -/
def cOracle : Nat → OModelResponse
  | 0 => .stream [⟨"", "", [⟨some "call_abc", "write_file", [("path", "h")]⟩]⟩]
  | _ => .stream [⟨"", "done", []⟩]

/-- C4 counterexample: the Ollama-endpoint agent appends its tool result as a
bare role-tool/content message — the stored turn carries no
tool-call id (and no tool name), so the result is not correlated to its
request by the request's id, refuting the claim for this agent. -/
theorem ollama_tool_result_lacks_id :
    oRun (fun _ _ => "ok") cOracle 20 [] "hi" =
      ⟨[oUserMsg "hi",
        ⟨"assistant", "", [⟨"call_abc", "write_file", [("path", "h")]⟩], none⟩,
        ⟨"tool", "ok", [], none⟩],
       .done "done", 2⟩ := by
  decide

/-! ## Claim C8 -/

/-- C8 (amended): when the resolved path is a directory and no glob filter is
supplied, every candidate file `grep` searches has an extension outside the
fixed binary/generated set and lies in no hidden directory (in particular no
hidden top-level directory); and an invalid regex pattern makes `grep` fail
with the invalid-pattern error.  (When a glob filter IS supplied the selection
comes from the glob expansion and these filters are not applied; see the
counterexample.) -/
theorem grep_dir_search_skips (pat pathstr : String) (ctx : JVal) (cfg : Conf)
    (re : String → Option (String → Bool)) (fs : Fs)
    (hre : re pat = none)
    (hdir : fs.stat (resolvePath pathstr cfg) = .dir) :
    (grep (.str pat) (.str pathstr) .null ctx cfg re fs =
      (.error (.toolError ("Invalid regex pattern: " ++ pat)), fs)) ∧
    (∀ f ∈ grepCandidates fs (resolvePath pathstr cfg) none,
      skip_exts.contains (pathSuffix f) = false ∧
      isHiddenUnder (resolvePath pathstr cfg) f = false) := by
  constructor
  · simp [grep, toStrVal, pyTruthy, hre]
  · intro f hf
    simp only [grepCandidates, hdir, List.mem_map, List.mem_filter] at hf
    obtain ⟨e, ⟨⟨hmem, hconj⟩, he2⟩, rfl⟩ := hf
    simp only [Bool.and_eq_true] at hconj
    exact ⟨by simpa using he2, by simpa using hconj.2⟩

/-- Filesystem for the C8 witness: a directory holding a normal source file, a
binary artefact, and a file inside a hidden top-level directory. -/
def fsWit : Fs :=
  ⟨[("/w", .dir), ("/w/ok.py", .file "a\n"), ("/w/x.pyc", .file "a\n"),
    ("/w/.git/c", .file "a\n")]⟩

/-- Witness for C8: on a concrete directory tree the invalid-pattern error
fires and the surviving candidate is filter-clean. -/
theorem grep_dir_search_skips_witness :
    (grep (.str "[") (.str ".") .null (.int 0) ⟨"/w", 30⟩ (fun _ => none) fsWit =
      (.error (.toolError ("Invalid regex pattern: " ++ "[")), fsWit)) ∧
    (skip_exts.contains (pathSuffix "/w/ok.py") = false ∧
      isHiddenUnder (resolvePath "." ⟨"/w", 30⟩) "/w/ok.py" = false) :=
  ⟨(grep_dir_search_skips "[" "." (.int 0) ⟨"/w", 30⟩ (fun _ => none) fsWit rfl
      (by decide)).1,
   (grep_dir_search_skips "[" "." (.int 0) ⟨"/w", 30⟩ (fun _ => none) fsWit rfl
      (by decide)).2 "/w/ok.py" (by decide)⟩

/-- Literal-substring regex engine: the behaviour of `re.search` for patterns
without metacharacters, used to model the compiled pattern `a`. -/
def substringRe : String → Option (String → Bool) :=
  fun p => some (fun line => 0 < strCount line p)

/-- Filesystem for the C8 counterexample: a directory whose only file has a
skipped extension. -/
def fsPyc : Fs := ⟨[("/w", .dir), ("/w/x.pyc", .file "a\n")]⟩

/-- C8 counterexample: the path argument resolves to a directory (no explicit
file is given), yet with a glob filter `*` supplied the search DOES read the
`.pyc` file and reports a match from it — the extension/hidden-directory
filters are applied only in the no-glob branch, refuting the claim as stated. -/
theorem grep_glob_branch_searches_skipped_extensions :
    fsPyc.stat (resolvePath "." ⟨"/w", 30⟩) = .dir ∧
    (grep (.str "a") (.str ".") (.str "*") (.int 0) ⟨"/w", 30⟩ substringRe fsPyc).fst =
      .ok "Found 1 match(es) for /a/\n/w/x.pyc:1> a" := by
  decide
